import Mathlib

/-!
Verification of the completion-orchestration core of the rimeLLM repository.

The development shallowly embeds the two core modules:

* src/backend/strategy.py  — pattern classifiers (PatternMatcher), the cached
  strategy matcher (StrategyMatcher), and the dependency-ordered strategy
  chain (StrategyChain);
* src/backend/providers.py — the per-provider retrying completion call and
  the ProviderManager fallback protocol.

Modelling conventions:

* Python strings are Lean String / List Char; the regular expressions of
  PatternMatcher are compiled, pattern by pattern, into total structurally
  recursive character-list functions with the same matching semantics
  (search vs. anchored match, case folding, word boundaries, the dollar
  anchor accepting one trailing newline).  The Python re module treats
  backslash-w as any Unicode word character; this embedding restricts the
  word-character class to ASCII letters, digits, the underscore and the CJK
  block U+4E00..U+9FA5, which covers every script that the repository's
  patterns and the texts considered here can meet.
* Confidence values (0.99, 0.95, 0.85, 0.80, 0.75) are exact hundredths in
  the source, and only their ordering is ever used; they are represented as
  integer hundredths (99, 95, ...) so that every comparison is a kernel
  computable Nat comparison.
* The match cache is a Python 3.7+ dict, i.e. an insertion-ordered map; it
  is embedded as an association list to which fresh keys are appended at the
  tail, so the head is the oldest-inserted entry.  The md5 fingerprint of
  _generate_cache_key is treated as injective: the key is embedded as the
  hashed content itself (first 100 characters of the text together with the
  sorted context items).
* Python object aliasing is made explicit: _apply_preferences both returns
  the filtered list and mutates, in place, the match objects stored in the
  cache entry; the embedding of match_strategies therefore returns the new
  cache state alongside the result list.
* A streamed completion is embedded as the sequence of chunks it yields
  before it either ends normally or raises; an async provider call that can
  raise is embedded as an Except value.
-/

namespace RimeLLM

/- ===================== character classes and regex helpers ============== -/

/-- Membership in the CJK unified ideograph range u4e00-u9fa5 used by
strategy.py for Chinese detection. -/
def isChinese (c : Char) : Bool := 0x4e00 ≤ c.toNat && c.toNat ≤ 0x9fa5

/-- ASCII Latin letter, the class a-zA-Z of the source patterns. -/
def isLatin (c : Char) : Bool := ('a' ≤ c && c ≤ 'z') || ('A' ≤ c && c ≤ 'Z')

/-- ASCII digit. -/
def isDigitCh (c : Char) : Bool := '0' ≤ c && c ≤ '9'

/-- Word character class (Python backslash-w), restricted to the scripts
this development meets: ASCII letters, digits, underscore, CJK. -/
def isWordCh (c : Char) : Bool := isLatin c || isDigitCh c || c == '_' || isChinese c

/-- Whitespace class (Python backslash-s). -/
def isSpaceCh (c : Char) : Bool :=
  c == ' ' || c == '\t' || c == '\n' || c == '\r' || c == '\x0b' || c == '\x0c'

/-- ASCII lower-casing, the effect of re.IGNORECASE on the patterns here. -/
def lowerCh (c : Char) : Char :=
  if 'A' ≤ c && c ≤ 'Z' then Char.ofNat (c.toNat + 32) else c

/-- Case-insensitive character comparison. -/
def ciEq (a b : Char) : Bool := lowerCh a == lowerCh b

/-- Match a literal (case-insensitively when ci is true) at the head of the
input, returning the remainder on success. -/
def matchLit (ci : Bool) : List Char → List Char → Option (List Char)
  | [], cs => some cs
  | _ :: _, [] => none
  | p :: ps, c :: cs =>
      if (if ci then ciEq p c else p == c) then matchLit ci ps cs else none

/-- Does some suffix of the input satisfy the predicate?  This is re.search:
the hit predicate is tried at every start position. -/
def anyTail (p : List Char → Bool) : List Char → Bool
  | [] => p []
  | c :: rest => p (c :: rest) || anyTail p rest

/-- Like anyTail, but the hit predicate also sees the character immediately
before the current position (needed for word boundaries). -/
def anyTailPrev (p : Option Char → List Char → Bool) : Option Char → List Char → Bool
  | prev, [] => p prev []
  | prev, c :: rest => p prev (c :: rest) || anyTailPrev p (some c) rest

/-- Is the character on one side of a position a word character (an absent
character counts as a non-word character)? -/
def optIsWord : Option Char → Bool
  | none => false
  | some c => isWordCh c

/-- Substring search for a literal, re.search of a fixed string. -/
def containsLit (ci : Bool) (lit : List Char) (cs : List Char) : Bool :=
  anyTail (fun t => (matchLit ci lit t).isSome) cs

/-- After at least one whitespace character, skip further whitespace and
require a word character: the tail backslash-s+ backslash-w+ of several
patterns (the two classes are disjoint, so greedy matching is exact). -/
def afterSpacesWord : List Char → Bool
  | [] => false
  | c :: rest => if isSpaceCh c then afterSpacesWord rest else isWordCh c

/-- Match backslash-s+ backslash-w+ at the head of the input. -/
def hasSpacesWord : List Char → Bool
  | [] => false
  | c :: rest => isSpaceCh c && afterSpacesWord rest

/-- Skip whitespace, then require the given literal (case-insensitively):
the tail of patterns shaped lit1 backslash-s+ lit2. -/
def afterSpacesLit (lit : List Char) : List Char → Bool
  | [] => false
  | c :: rest => if isSpaceCh c then afterSpacesLit lit rest else (matchLit true lit (c :: rest)).isSome

/-- Match backslash-s+ followed by a case-insensitive literal at the head. -/
def spacesThenLit (lit : List Char) : List Char → Bool
  | [] => false
  | c :: rest => isSpaceCh c && afterSpacesLit lit rest

/-- Search for keyword backslash-s+ backslash-w+ (case-sensitive), the shape
of the function/def/class/const/let/var patterns of detect_code. -/
def searchKwWord (kw : List Char) (cs : List Char) : Bool :=
  anyTail (fun t =>
    match matchLit false kw t with
    | some rem => hasSpacesWord rem
    | none => false) cs

/-- Match dot-star followed by the literal from: the literal must occur
before any newline (re's dot does not cross newlines). -/
def dotStarFrom : List Char → Bool
  | [] => false
  | c :: rest =>
      (matchLit false ['f', 'r', 'o', 'm'] (c :: rest)).isSome || (c != '\n' && dotStarFrom rest)

/-- Match backslash-s* dot-star from: whitespace (which may include
newlines) may still be consumed by backslash-s, after which dot-star runs
up to the first newline. -/
def wsThenFrom : List Char → Bool
  | [] => false
  | c :: rest => dotStarFrom (c :: rest) || (isSpaceCh c && wsThenFrom rest)

/-- Match backslash-s+ dot-star from at the head of the input. -/
def wsDotStarFrom : List Char → Bool
  | [] => false
  | c :: rest => isSpaceCh c && wsThenFrom rest

/-- Search for the import backslash-s+ dot-star from pattern of
detect_code. -/
def searchImportFrom (cs : List Char) : Bool :=
  anyTail (fun t =>
    match matchLit false ['i', 'm', 'p', 'o', 'r', 't'] t with
    | some rem => wsDotStarFrom rem
    | none => false) cs

/-- Word-boundary delimited case-insensitive word hit at one position (the
word itself consists of word characters, as all searched words here do). -/
def hitWordCI (w : List Char) (prev : Option Char) (cs : List Char) : Bool :=
  !(optIsWord prev) &&
    (match matchLit true w cs with
     | some rem => !(optIsWord rem.head?)
     | none => false)

/-- Search for backslash-b word backslash-b, case-insensitively. -/
def searchWordCI (w : List Char) (cs : List Char) : Bool :=
  anyTailPrev (hitWordCI w) none cs

/-- Strip one trailing newline: the Python dollar anchor also matches just
before a single final newline. -/
def stripFinalNL (cs : List Char) : List Char :=
  if cs.getLast? == some '\n' then cs.dropLast else cs

/- ===================== PatternMatcher ================================== -/

/-- Embedding of PatternMatcher.detect_language: presence of CJK
vs. Latin-letter code points. -/
def detect_language (cs : List Char) : String :=
  let has_chinese := cs.any isChinese
  let has_english := cs.any isLatin
  if has_chinese && has_english then "mixed"
  else if has_chinese then "zh"
  else if has_english then "en"
  else "unknown"

/-- The common-typo word list of detect_typos (the source lists taht
twice). -/
def commonTypos : List (List Char) :=
  [['t','e','h'], ['t','a','h','t'], ['w','r','o','k'], ['t','a','h','t'],
   ['r','e','c','i','e','v','e','d'], ['o','c','c','u','r','e','d'],
   ['s','e','p','e','r','a','t','e'], ['d','e','f','i','n','a','t','e','l','y'],
   ['a','c','c','o','m','o','d','a','t','e']]

/-- Embedding of PatternMatcher.detect_typos: case-insensitive
word-boundary search for each listed typo. -/
def detect_typos (cs : List Char) : Bool :=
  commonTypos.any (fun w => searchWordCI w cs)

/-- First expansion pattern, re.match of caret dot(1,10) dollar: an anchored
full match of one to ten non-newline characters (with the dollar tolerating
one final newline). -/
def shortTextPattern (cs : List Char) : Bool :=
  let core := stripFinalNL cs
  decide (1 ≤ core.length) && decide (core.length ≤ 10) && core.all (· != '\n')

/-- Second expansion pattern, re.match of backslash-b (AI|API|SDK|URL|HTTP|
TCP|UDP) backslash-b: anchored at the start, so the text must begin with
one of the acronyms followed by a word boundary (case-sensitive). -/
def acronymAtStart (cs : List Char) : Bool :=
  [['A','I'], ['A','P','I'], ['S','D','K'], ['U','R','L'],
   ['H','T','T','P'], ['T','C','P'], ['U','D','P']].any (fun w =>
    match matchLit false w cs with
    | some rem => !(optIsWord rem.head?)
    | none => false)

/-- Embedding of PatternMatcher.detect_expansion_candidate: the two
re.match patterns tried in order. -/
def detect_expansion_candidate (cs : List Char) : Bool :=
  shortTextPattern cs || acronymAtStart cs

/-- One alternative of the mixed pattern: a nonempty run of characters of
class p, a single space, then a nonempty run of class q reaching the end
(the two classes never contain the space, so greedy matching is exact). -/
def twoTokenShape (p q : Char → Bool) (cs : List Char) : Bool :=
  let a := cs.takeWhile p
  !a.isEmpty &&
    (match cs.drop a.length with
     | ' ' :: rest => !rest.isEmpty && rest.all q
     | _ => false)

/-- Embedding of PatternMatcher.detect_translation_candidate: the anchored
two-token mixed pattern, then the pure-Chinese / pure-Latin direction
fallback. -/
def detect_translation_candidate (cs : List Char) : Bool × String :=
  let core := stripFinalNL cs
  if twoTokenShape isChinese isLatin core || twoTokenShape isLatin isChinese core then
    (true, "mixed")
  else
    let has_chinese := cs.any isChinese
    let has_english := cs.any isLatin
    if has_chinese && !has_english then (true, "zh-en")
    else if has_english && !has_chinese then (true, "en-zh")
    else (false, "")

/-- Hit predicate for the email-address pattern backslash-w+ at backslash-w+
dot backslash-w+ at one search position. -/
def emailAddrHit (cs : List Char) : Bool :=
  let w1 := cs.takeWhile isWordCh
  !w1.isEmpty &&
    (match cs.drop w1.length with
     | '@' :: r2 =>
        let w2 := r2.takeWhile isWordCh
        !w2.isEmpty &&
          (match r2.drop w2.length with
           | '.' :: r3 => optIsWord r3.head?
           | _ => false)
     | _ => false)

/-- Embedding of PatternMatcher.detect_email_context: the five
case-insensitive searched patterns of the source, in order. -/
def detect_email_context (cs : List Char) : Bool :=
  anyTail (fun t =>
    match matchLit true ['d','e','a','r'] t with
    | some rem => hasSpacesWord rem
    | none => false) cs ||
  anyTail (fun t =>
    match matchLit true ['b','e','s','t'] t with
    | some rem => spacesThenLit ['r','e','g','a','r','d','s'] rem
    | none => false) cs ||
  containsLit true ['s','i','n','c','e','r','e','l','y'] cs ||
  anyTail emailAddrHit cs ||
  anyTail (fun t =>
    match matchLit true ['p','l','e','a','s','e'] t with
    | some rem => spacesThenLit ['f','i','n','d'] rem
    | none => false) cs

/-- Hit predicate for hey+ backslash-s+ backslash-w* at one position: he,
then at least one y, then at least one whitespace character (the trailing
backslash-w* always matches). -/
def heyHit (cs : List Char) : Bool :=
  match matchLit true ['h','e'] cs with
  | some rem =>
      let ys := rem.takeWhile (fun c => ciEq c 'y')
      !ys.isEmpty &&
        (match rem.drop ys.length with
         | c :: _ => isSpaceCh c
         | [] => false)
  | none => false

/-- Hit predicate for whats? backslash-s+ up at one position. -/
def whatsUpHit (cs : List Char) : Bool :=
  match matchLit true ['w','h','a','t'] cs with
  | some rem =>
      (match matchLit true ['s'] rem with
       | some rem2 => spacesThenLit ['u','p'] rem2
       | none => false) ||
      spacesThenLit ['u','p'] rem
  | none => false

/-- Embedding of PatternMatcher.detect_chat_context: the six
case-insensitive searched patterns of the source, in order. -/
def detect_chat_context (cs : List Char) : Bool :=
  containsLit true ['l','o','l'] cs ||
  (containsLit true [':',')'] cs || containsLit true [':','('] cs ||
    containsLit true [':','d'] cs) ||
  anyTail heyHit cs ||
  anyTail whatsUpHit cs ||
  containsLit true ['b','r','b'] cs ||
  containsLit true ['t','t','y','l'] cs

/-- Embedding of PatternMatcher.detect_code: the ten case-sensitive
searched patterns of the source, in order. -/
def detect_code (cs : List Char) : Bool :=
  searchKwWord ['f','u','n','c','t','i','o','n'] cs ||
  searchKwWord ['d','e','f'] cs ||
  searchKwWord ['c','l','a','s','s'] cs ||
  searchKwWord ['c','o','n','s','t'] cs ||
  searchKwWord ['l','e','t'] cs ||
  searchKwWord ['v','a','r'] cs ||
  searchImportFrom cs ||
  containsLit false ['#','i','n','c','l','u','d','e'] cs ||
  containsLit false ['c','o','n','s','o','l','e','.','l','o','g'] cs ||
  containsLit false ['p','r','i','n','t','('] cs

/- ===================== strategy data model ============================= -/

/-- Embedding of the StrategyType enum. -/
inductive StrategyType
  | correction
  | expansion
  | translation
  | summarization
  | completion
  | custom
deriving DecidableEq, Repr, Fintype

/-- Embedding of the StrategyPriority enum. -/
inductive StrategyPriority
  | low
  | medium
  | high
  | critical
deriving DecidableEq, Repr, Fintype

/-- Numeric value of a StrategyPriority (the enum values of the source). -/
def StrategyPriority.value : StrategyPriority → Nat
  | .low => 1
  | .medium => 5
  | .high => 10
  | .critical => 100

/-- Embedding of the StrategyMatch dataclass.  Confidence is in integer
hundredths (source 0.99 is 99); metadata is the dict as an association
list. -/
structure StrategyMatch where
  strategy_type : StrategyType
  confidence : Nat
  matched_patterns : List String
  priority : StrategyPriority
  metadata : List (String × String) := []
deriving DecidableEq, Repr

/-- Embedding of the UserPreferences dataclass.  strategy_priorities maps a
strategy type to the priority holding its override value; the source stores
the raw enum value and converts it back with the StrategyPriority
constructor, which only accepts the four legal values. -/
structure UserPreferences where
  preferred_language : String := "zh"
  correction_enabled : Bool := true
  expansion_enabled : Bool := true
  translation_enabled : Bool := true
  summarization_enabled : Bool := true
  auto_expand_shortcuts : Bool := true
  strategy_priorities : List (StrategyType × StrategyPriority) := []
  learned_preferences : List (String × Nat) := []

/-- Default-constructed UserPreferences: every strategy enabled, no
overrides. -/
def defaultPrefs : UserPreferences := {}

/- ===================== stable sort (list.sort of Python) =============== -/

/-- Insert an element into an already sorted list, before the first element
it may precede.  Together with foldr this is a stable sort: for a total
preorder le, ties keep their original relative order, exactly as Python's
stable list.sort. -/
def insertSorted (le : α → α → Bool) (x : α) : List α → List α
  | [] => [x]
  | y :: ys => if le x y then x :: y :: ys else y :: insertSorted le x ys

/-- Stable insertion sort. -/
def stableSort (le : α → α → Bool) (l : List α) : List α :=
  l.foldr (insertSorted le) []

/-- Comparison used by _finalize_matches: sort by (priority value,
confidence), descending, stable.  le a b says a may come before b, which
for a reversed sort means the key of b is lexicographically at most the key
of a. -/
def matchLE (a b : StrategyMatch) : Bool :=
  decide (b.priority.value < a.priority.value) ||
    (b.priority.value == a.priority.value && decide (b.confidence ≤ a.confidence))

/-- The in-place matches.sort of _finalize_matches. -/
def sortMatches (l : List StrategyMatch) : List StrategyMatch :=
  stableSort matchLE l

/-- Comparison used by build_chain: sort by priority value, descending,
stable. -/
def priorityLE (a b : StrategyMatch) : Bool :=
  decide (b.priority.value ≤ a.priority.value)

/-- The sorted(matches, ...) of build_chain. -/
def chainSort (l : List StrategyMatch) : List StrategyMatch :=
  stableSort priorityLE l

/- ===================== StrategyMatcher ================================ -/

/-- Context dictionaries are embedded as association lists of strings. -/
abbrev Ctx := List (String × String)

/-- Cache key of _generate_cache_key: the first 100 characters of the text
together with the sorted context items (the md5 hash of that content is
treated as injective).  An absent or empty context dict is falsy in Python
and contributes nothing. -/
structure CacheKey where
  head100 : List Char
  ctxPart : Option (List (String × String))
deriving DecidableEq

/-- Python tuple comparison on context items, as a Bool relation for the
stable sort. -/
def ctxPairLE (a b : String × String) : Bool :=
  decide (a.1 < b.1) || (a.1 == b.1 && decide (a.2 ≤ b.2))

/-- Embedding of StrategyMatcher._generate_cache_key. -/
def generate_cache_key (text : String) (context : Option Ctx) : CacheKey :=
  ⟨text.toList.take 100,
   match context with
   | none => none
   | some l => if l.isEmpty then none else some (stableSort ctxPairLE l)⟩

/-- Lookup in the insertion-ordered cache (first, i.e. unique, matching
key). -/
def cacheFind : List (CacheKey × List StrategyMatch) → CacheKey → Option (List StrategyMatch)
  | [], _ => none
  | e :: rest, k => if e.1 = k then some e.2 else cacheFind rest k

/-- In-place replacement of the value stored under a key, keeping the
entry's position: the effect of mutating, through aliasing, the match
objects inside a cache entry. -/
def cacheUpdate (cache : List (CacheKey × List StrategyMatch)) (k : CacheKey)
    (v : List StrategyMatch) : List (CacheKey × List StrategyMatch) :=
  cache.map (fun e => if e.1 = k then (e.1, v) else e)

/-- Mutable state of a StrategyMatcher: the _match_cache dict and the
_cache_size bound (1000 in __init__). -/
structure MatcherState where
  cache : List (CacheKey × List StrategyMatch)
  cache_size : Nat

/-- A freshly constructed StrategyMatcher. -/
def matcherInit : MatcherState := ⟨[], 1000⟩

/-- The single CRITICAL protect-code match built when detect_code fires. -/
def codeProtectMatch : StrategyMatch :=
  ⟨.custom, 99, ["code_detected"], .critical, [("action", "protect_code")]⟩

/-- The HIGH correction match built when detect_typos fires. -/
def correctionMatch : StrategyMatch :=
  ⟨.correction, 95, ["typo_detected"], .high, []⟩

/-- The MEDIUM translation match with its direction metadata. -/
def translationMatch (direction : String) : StrategyMatch :=
  ⟨.translation, 85, ["translation_candidate"], .medium, [("direction", direction)]⟩

/-- The MEDIUM expansion match. -/
def expansionMatch : StrategyMatch :=
  ⟨.expansion, 75, ["short_text", "expansion_candidate"], .medium, []⟩

/-- The LOW formal-tone match built on email context. -/
def emailMatch : StrategyMatch :=
  ⟨.custom, 80, ["email_context"], .low, [("action", "formal_tone")]⟩

/-- The LOW casual-tone match built on chat context. -/
def chatMatch : StrategyMatch :=
  ⟨.custom, 80, ["chat_context"], .low, [("action", "casual_tone")]⟩

/-- Python truthiness gate (preferences and preferences.x_enabled): false
when no preferences object was passed. -/
def prefGate (preferences : Option UserPreferences) (f : UserPreferences → Bool) : Bool :=
  match preferences with
  | some p => f p
  | none => false

/-- The enabled/disabled filter of _apply_preferences for one match. -/
def passes_filter (m : StrategyMatch) (p : UserPreferences) : Bool :=
  !(m.strategy_type == .correction && !p.correction_enabled) &&
  !(m.strategy_type == .expansion && !p.expansion_enabled) &&
  !(m.strategy_type == .translation && !p.translation_enabled) &&
  !(m.strategy_type == .summarization && !p.summarization_enabled)

/-- Lookup of a priority override in strategy_priorities. -/
def prioLookup : List (StrategyType × StrategyPriority) → StrategyType → Option StrategyPriority
  | [], _ => none
  | e :: rest, t => if e.1 == t then some e.2 else prioLookup rest t

/-- The in-place priority override of _apply_preferences on one match. -/
def overrideMatch (p : UserPreferences) (m : StrategyMatch) : StrategyMatch :=
  match prioLookup p.strategy_priorities m.strategy_type with
  | some pr => { m with priority := pr }
  | none => m

/-- Return value of _apply_preferences: disabled strategy types are
skipped, the rest get their priority override applied. -/
def applyPrefResult (ms : List StrategyMatch) (p : UserPreferences) :
    List StrategyMatch :=
  ms.filterMap (fun m => if passes_filter m p then some (overrideMatch p m) else none)

/-- Side effect of _apply_preferences on the list it was given: the match
objects that pass the filter are mutated in place (their priority is
overridden), the skipped ones are untouched; the list keeps its length and
order.  Because the cache entry aliases these objects, this is the new
cache-entry content. -/
def applyPrefMutate (ms : List StrategyMatch) (p : UserPreferences) :
    List StrategyMatch :=
  ms.map (fun m => if passes_filter m p then overrideMatch p m else m)

/-- Embedding of StrategyMatcher._finalize_matches: sort by (priority,
confidence) descending; if the cache strictly exceeds _cache_size, delete
the oldest-inserted entry; store a copy under the key; return the sorted
matches.  The preferences argument is accepted and ignored, as in the
source. -/
def finalize_matches (st : MatcherState) (ms : List StrategyMatch)
    (cache_key : CacheKey) (_preferences : Option UserPreferences) :
    List StrategyMatch × MatcherState :=
  let sorted := sortMatches ms
  let cache1 := if st.cache.length > st.cache_size then st.cache.tail else st.cache
  (sorted, ⟨cache1 ++ [(cache_key, sorted)], st.cache_size⟩)

/-- The match list assembled on the non-code miss path of match_strategies:
typo, translation, expansion, email and chat detectors in that order, the
translation and expansion ones gated by the preferences at detection
time. -/
def computedMatches (text : String) (preferences : Option UserPreferences) :
    List StrategyMatch :=
  (if detect_typos text.toList then [correctionMatch] else []) ++
  (if (detect_translation_candidate text.toList).1 &&
      prefGate preferences (·.translation_enabled) then
    [translationMatch (detect_translation_candidate text.toList).2] else []) ++
  (if detect_expansion_candidate text.toList &&
      prefGate preferences (·.expansion_enabled) then [expansionMatch] else []) ++
  (if detect_email_context text.toList then [emailMatch] else []) ++
  (if detect_chat_context text.toList then [chatMatch] else [])

/-- Embedding of StrategyMatcher.match_strategies.  Returns the matches
together with the matcher state after the call (the cache is genuinely
mutated on a hit with preferences, because _apply_preferences mutates the
aliased match objects). -/
def match_strategies (st : MatcherState) (text : String) (context : Option Ctx)
    (preferences : Option UserPreferences) : List StrategyMatch × MatcherState :=
  let cache_key := generate_cache_key text context
  match cacheFind st.cache cache_key with
  | some cached =>
      match preferences with
      | some p =>
          (applyPrefResult cached p,
           ⟨cacheUpdate st.cache cache_key (applyPrefMutate cached p), st.cache_size⟩)
      | none => (cached, st)
  | none =>
      if detect_code text.toList then
        finalize_matches st [codeProtectMatch] cache_key preferences
      else
        finalize_matches st (computedMatches text preferences) cache_key preferences

/- ===================== StrategyChain =================================== -/

/-- Position of the first occurrence of an element in a list (length of the
list when absent). -/
def posOf (a : StrategyType) : List StrategyType → Nat
  | [] => 0
  | b :: l => if b = a then 0 else posOf a l + 1

/-- Every declared dependency of every strategy kind occurring in the chain
occurs in the chain, strictly earlier. -/
def depsBefore (deps : StrategyType → List StrategyType) (chain : List StrategyType) : Prop :=
  ∀ k ∈ chain, ∀ d ∈ deps k, d ∈ chain ∧ posOf d chain < posOf k chain

instance (deps : StrategyType → List StrategyType) (chain : List StrategyType) :
    Decidable (depsBefore deps chain) := by
  unfold depsBefore; infer_instance

/-- The inner dependency loop of build_chain: append each not-yet-processed
dependency to the chain and mark it processed, in declared order. -/
def emitDeps : List StrategyType → List StrategyType × List StrategyType →
    List StrategyType × List StrategyType
  | [], cp => cp
  | d :: ds, (chain, processed) =>
      if d ∈ processed then emitDeps ds (chain, processed)
      else emitDeps ds (chain ++ [d], processed ++ [d])

/-- The main loop of build_chain over the priority-sorted matches.  The
dependency map is total (the source reads it with dict.get and a default of
the empty list). -/
def buildChainAux (deps : StrategyType → List StrategyType) :
    List StrategyMatch → List StrategyType × List StrategyType → List StrategyType
  | [], (chain, _) => chain
  | m :: rest, (chain, processed) =>
      if m.strategy_type ∈ processed then
        buildChainAux deps rest (chain, processed)
      else
        buildChainAux deps rest
          ((emitDeps (deps m.strategy_type) (chain, processed)).1 ++ [m.strategy_type],
           (emitDeps (deps m.strategy_type) (chain, processed)).2 ++ [m.strategy_type])

/-- Embedding of StrategyChain.build_chain. -/
def build_chain (deps : StrategyType → List StrategyType)
    (ms : List StrategyMatch) : List StrategyType :=
  match ms with
  | [] => []
  | _ => buildChainAux deps (chainSort ms) ([], [])

/-- Embedding of StrategyChain.execute_chain: the running text is fed
through the processor for each kind in order; a processor failure (a raised
exception, embedded as an error value) leaves the running text unchanged
for that step and execution continues. -/
def execute_chain (text : String) (chain : List StrategyType)
    (processor : String → StrategyType → Except String String) : String :=
  match chain with
  | [] => text
  | k :: ks =>
      match processor text k with
      | .ok r => execute_chain r ks processor
      | .error _ => execute_chain text ks processor

/-- The specification's description of chain execution, as a relation: one
processor application per kind in chain order, a failing step keeping the
running text, and a final text always produced. -/
inductive ChainExec (processor : String → StrategyType → Except String String) :
    String → List StrategyType → String → Prop
  | nil (t : String) : ChainExec processor t [] t
  | okStep {t k r ks u} : processor t k = .ok r → ChainExec processor r ks u →
      ChainExec processor t (k :: ks) u
  | errStep {t k e ks u} : processor t k = .error e → ChainExec processor t ks u →
      ChainExec processor t (k :: ks) u

/- ===================== providers ======================================= -/

/-- Embedding of the ProviderType enum (source members OPENAI, ANTHROPIC,
LOCAL, CUSTOM; LOCAL is rendered localBackend because local is a Lean
keyword). -/
inductive ProviderType
  | openai
  | anthropic
  | localBackend
  | custom
deriving DecidableEq, Repr

/-- Embedding of the MessageRole enum. -/
inductive MessageRole
  | system
  | user
  | assistant
deriving DecidableEq, Repr

/-- Embedding of the Message dataclass. -/
structure Message where
  role : MessageRole
  content : String
deriving DecidableEq, Repr

/-- One HTTP response from a backend, holding the fields the providers
extract: the status code, the completion content of a 200 body, the vendor
error message of an error body, and the usage map. -/
structure HttpResponse where
  status : Nat
  content : String := ""
  error_message : Option String := none
  usage : Option (List (String × Nat)) := none
deriving DecidableEq, Repr

/-- Outcome of one HTTP attempt: a response, or a raised
httpx.TimeoutException. -/
inductive HttpAttempt
  | response (r : HttpResponse)
  | timeout
deriving DecidableEq, Repr

/-- Is this attempt an HTTP 429 response? -/
def HttpAttempt.is429 : HttpAttempt → Bool
  | .response r => r.status == 429
  | .timeout => false

/-- Embedding of the ChatCompletion dataclass (the raw backend payload is
the response it was parsed from). -/
structure ChatCompletion where
  content : String
  model : String
  usage : Option (List (String × Nat)) := none
  raw_response : Option HttpResponse := none
deriving DecidableEq, Repr

/-- Observable outcome of one complete call: the returned completion or the
raised error, together with the number of HTTP calls issued and the list of
backoff sleeps (in seconds) performed between attempts. -/
inductive CompleteOutcome
  | success (c : ChatCompletion) (calls : Nat) (delays : List Nat)
  | failure (msg : String) (calls : Nat) (delays : List Nat)
deriving DecidableEq, Repr

/-- Parsing of a 200 response body, per provider variant: OpenAI and
Anthropic read the usage map with a default of the empty dict, the local
provider always reports an empty usage dict. -/
def parseSuccess (variant : ProviderType) (model : String) (r : HttpResponse) :
    ChatCompletion :=
  match variant with
  | .localBackend => ⟨r.content, model, some [], some r⟩
  | _ => ⟨r.content, model, some (r.usage.getD []), some r⟩

/-- The error message raised on a terminal non-200 response, per provider
variant (the local provider reports the bare status code and never parses a
vendor message). -/
def apiErrorText (variant : ProviderType) (r : HttpResponse) : String :=
  match variant with
  | .openai => "OpenAI API error: " ++ r.error_message.getD "Unknown error"
  | .anthropic => "Anthropic API error: " ++ r.error_message.getD "Unknown error"
  | _ => "Local API error: " ++ toString r.status

/-- Does the variant's complete treat HTTP 429 as retryable?  OpenAI and
Anthropic back off and retry; the local provider's complete has no 429
branch and raises on any non-200 status. -/
def handles429 : ProviderType → Bool
  | .openai => true
  | .anthropic => true
  | _ => false

/-- The retry loop shared by the complete methods, with the backend
abstracted as the sequence of attempt outcomes: remaining is the number of
loop iterations left (retry_count at the top call), attempt the current
loop index, calls and delays the instrumentation accumulators.  Running out
of iterations raises Max retries exceeded; a 200 response returns the
parsed completion; a 429 sleeps two-to-the-attempt seconds and continues
(OpenAI/Anthropic only); any other response raises the variant's error; a
timeout sleeps one second and continues unless this was the final attempt,
in which case it re-raises. -/
def completeAux (variant : ProviderType) (model : String) (retry_count : Nat)
    (resp : Nat → HttpAttempt) :
    Nat → Nat → Nat → List Nat → CompleteOutcome
  | 0, _, calls, delays => .failure "Max retries exceeded" calls delays
  | remaining + 1, attempt, calls, delays =>
      match resp attempt with
      | .response r =>
          if r.status = 200 then
            .success (parseSuccess variant model r) (calls + 1) delays
          else if r.status = 429 && handles429 variant then
            completeAux variant model retry_count resp remaining (attempt + 1) (calls + 1)
              (delays ++ [2 ^ attempt])
          else
            .failure (apiErrorText variant r) (calls + 1) delays
      | .timeout =>
          if attempt < retry_count - 1 then
            completeAux variant model retry_count resp remaining (attempt + 1) (calls + 1)
              (delays ++ [1])
          else
            .failure "httpx.TimeoutException" (calls + 1) delays

/-- Embedding of the complete method of the three provider classes, run
against a backend that answers attempt i with resp i. -/
def providerComplete (variant : ProviderType) (model : String) (retry_count : Nat)
    (resp : Nat → HttpAttempt) : CompleteOutcome :=
  completeAux variant model retry_count resp retry_count 0 0 []

/-- Outcome of consuming one streamed completion: the chunks yielded before
the stream either ended normally (error none) or raised. -/
structure StreamOutcome where
  chunks : List String
  error : Option String := none
deriving DecidableEq, Repr

/-- A registered provider, abstracted to the observable behaviour of its
complete and stream_complete methods on a given message list (the stream
argument of complete is the boolean forwarded into the request payload). -/
structure AIProvider where
  complete : List Message → Bool → Except String ChatCompletion
  stream_complete : List Message → StreamOutcome

/-- Registry lookup (dict.get on the _providers dict). -/
def findProvider : List (ProviderType × AIProvider) → ProviderType → Option AIProvider
  | [], _ => none
  | e :: rest, t => if e.1 = t then some e.2 else findProvider rest t

/-- State of a ProviderManager: the registry and the designated active and
fallback provider kinds. -/
structure ProviderManager where
  providers : List (ProviderType × AIProvider)
  active_provider : Option ProviderType := none
  fallback_provider : Option ProviderType := none

/-- Embedding of ProviderManager.get_active_provider. -/
def ProviderManager.get_active_provider (pm : ProviderManager) : Option AIProvider :=
  match pm.active_provider with
  | some t => findProvider pm.providers t
  | none => none

/-- Embedding of ProviderManager.complete_with_fallback: no active provider
raises a configuration error; an active failure falls back to a configured
and registered fallback, whose own outcome (success or failure) propagates;
with no usable fallback the active error is re-raised. -/
def ProviderManager.complete_with_fallback (pm : ProviderManager)
    (messages : List Message) (stream : Bool) : Except String ChatCompletion :=
  match pm.get_active_provider with
  | none => .error "No active provider configured"
  | some active =>
      match active.complete messages stream with
      | .ok r => .ok r
      | .error e =>
          match pm.fallback_provider with
          | some ft =>
              match findProvider pm.providers ft with
              | some fb => fb.complete messages stream
              | none => .error e
          | none => .error e

/-- Embedding of ProviderManager.stream_with_fallback: the chunks of the
active stream are yielded as they arrive; if the active stream raises after
some chunks, a configured and registered fallback stream is consumed from
scratch and appended (its own error propagating); with no usable fallback
the exception is swallowed and the generator simply ends. -/
def ProviderManager.stream_with_fallback (pm : ProviderManager)
    (messages : List Message) : StreamOutcome :=
  match pm.get_active_provider with
  | none => ⟨[], some "No active provider configured"⟩
  | some active =>
      let s := active.stream_complete messages
      match s.error with
      | none => s
      | some _ =>
          match pm.fallback_provider with
          | some ft =>
              match findProvider pm.providers ft with
              | some fb =>
                  let f := fb.stream_complete messages
                  ⟨s.chunks ++ f.chunks, f.error⟩
              | none => ⟨s.chunks, none⟩
          | none => ⟨s.chunks, none⟩

/- ===================== concrete scenario values ======================== -/

/-- All-enabled preferences carrying a priority override for translation. -/
def overridePrefs : UserPreferences :=
  { strategy_priorities := [(.translation, .high)] }

/-- The mixed Chinese/English scenario text of the specification. -/
def c8text : String := "项目使用了 React 和 Node.js"

/-- One thousand pairwise distinct cache keys (single CJK characters). -/
def manyKeys : List CacheKey :=
  (List.range 1000).map (fun i => ⟨[Char.ofNat (19968 + i)], none⟩)

/-- A matcher state whose cache already holds 1000 entries. -/
def fullState : MatcherState := ⟨manyKeys.map (fun k => (k, [])), 1000⟩

/-- Backend answering 429 on the first two attempts and 200 on the third. -/
def resp429twice : Nat → HttpAttempt := fun i =>
  if i < 2 then .response ⟨429, "", some "rate limited", none⟩
  else .response ⟨200, "hello", none, some [("total_tokens", 7)]⟩

/-- The 200 response of resp429twice. -/
def ok200 : HttpResponse := ⟨200, "hello", none, some [("total_tokens", 7)]⟩

/-- Backend answering 429 on the first attempt and 200 afterwards. -/
def respLocal429 : Nat → HttpAttempt := fun i =>
  if i = 0 then .response ⟨429, "", some "rate limited", none⟩
  else .response ⟨200, "hello", none, none⟩

/-- Backend answering 429 on every attempt. -/
def respAll429 : Nat → HttpAttempt := fun _ =>
  .response ⟨429, "", some "rate limited", none⟩

/-- A completion returned by the concrete fallback provider below. -/
def okCompletion : ChatCompletion := ⟨"fallback says hi", "gpt-3.5-turbo", some [], none⟩

/-- A provider whose complete and stream_complete always fail (the stream
after one chunk). -/
def activeFailP : AIProvider :=
  ⟨fun _ _ => .error "active error", fun _ => ⟨["a1"], some "connection reset"⟩⟩

/-- A provider that always succeeds. -/
def fallbackOkP : AIProvider :=
  ⟨fun _ _ => .ok okCompletion, fun _ => ⟨["f1", "f2"], none⟩⟩

/-- A provider whose complete always fails with its own message. -/
def fallbackFailP : AIProvider :=
  ⟨fun _ _ => .error "fallback error", fun _ => ⟨[], some "fallback boom"⟩⟩

/-- A concrete message list. -/
def msgsW : List Message := [⟨.user, "Hello"⟩]

/-- Manager with a failing active provider and a failing registered
fallback. -/
def pmBothFail : ProviderManager :=
  ⟨[(.openai, activeFailP), (.anthropic, fallbackFailP)], some .openai, some .anthropic⟩

/-- Manager with a failing active provider and a succeeding registered
fallback. -/
def pmFbOk : ProviderManager :=
  ⟨[(.openai, activeFailP), (.anthropic, fallbackOkP)], some .openai, some .anthropic⟩

/-- Manager with no active provider configured. -/
def pmNoActive : ProviderManager := ⟨[(.openai, fallbackOkP)], none, none⟩

/-- Manager with a failing active provider and no fallback configured. -/
def pmNoFb : ProviderManager := ⟨[(.openai, activeFailP)], some .openai, none⟩

/-- A dependency map declaring a strategy kind depending on itself. -/
def depsSelf : StrategyType → List StrategyType := fun k =>
  match k with
  | .correction => [.correction]
  | _ => []

/-- A two-cycle dependency map: correction and expansion depend on each
other. -/
def depsCyc : StrategyType → List StrategyType := fun k =>
  match k with
  | .correction => [.expansion]
  | .expansion => [.correction]
  | _ => []

/-- A well-founded dependency map: expansion depends on correction, which
depends on nothing. -/
def depsOk : StrategyType → List StrategyType := fun k =>
  match k with
  | .expansion => [.correction]
  | _ => []

/-- A cached unfiltered match set, as produced by a miss on the text 你好
with translation and expansion enabled. -/
def cachedPair : List StrategyMatch := [translationMatch "zh-en", expansionMatch]

/-- A matcher state holding cachedPair under the key of the text 你好. -/
def hitState : MatcherState := ⟨[(generate_cache_key "你好" none, cachedPair)], 1000⟩

/-- Preferences are benign when absent, or when they enable every strategy
kind and override no priority; these are exactly the preferences that
_apply_preferences maps to the identity. -/
def benignPrefs (prefs : Option UserPreferences) : Prop :=
  prefs = none ∨
    ∃ p, prefs = some p ∧ p.correction_enabled = true ∧ p.expansion_enabled = true ∧
      p.translation_enabled = true ∧ p.summarization_enabled = true ∧
      p.strategy_priorities = []

/- ===================== cache lemmas ==================================== -/

/-- Replacing a value in place does not change the cache size. -/
theorem cacheUpdate_length (cache : List (CacheKey × List StrategyMatch))
    (k : CacheKey) (v : List StrategyMatch) :
    (cacheUpdate cache k v).length = cache.length := by
  simp [cacheUpdate]

/-- A key absent from the cache is absent from its tail. -/
theorem cacheFind_tail_none (cache : List (CacheKey × List StrategyMatch)) (k : CacheKey)
    (h : cacheFind cache k = none) : cacheFind cache.tail k = none := by
  cases cache with
  | nil => rfl
  | cons e rest =>
      by_cases hk : e.1 = k
      · simp [cacheFind, hk] at h
      · simpa [cacheFind, hk] using h

/-- Appending an entry under a fresh key makes it findable. -/
theorem cacheFind_append_self (cache : List (CacheKey × List StrategyMatch)) (k : CacheKey)
    (v : List StrategyMatch) (h : cacheFind cache k = none) :
    cacheFind (cache ++ [(k, v)]) k = some v := by
  induction cache with
  | nil => simp [cacheFind]
  | cons e rest ih =>
      by_cases hk : e.1 = k
      · simp [cacheFind, hk] at h
      · simp only [List.cons_append, cacheFind, hk, if_false] at h ⊢
        exact ih h

/-- Updating the value under a present key is observed by the next lookup. -/
theorem cacheFind_cacheUpdate (cache : List (CacheKey × List StrategyMatch)) (k : CacheKey)
    (v w : List StrategyMatch) (h : cacheFind cache k = some w) :
    cacheFind (cacheUpdate cache k v) k = some v := by
  induction cache with
  | nil => simp [cacheFind] at h
  | cons e rest ih =>
      by_cases hk : e.1 = k
      · subst hk
        simp [cacheFind, cacheUpdate]
      · rw [cacheFind, if_neg hk] at h
        rw [cacheUpdate, List.map_cons, if_neg hk, cacheFind, if_neg hk]
        exact ih h

/-- On a cache miss, match_strategies always goes through _finalize_matches
with the match list it computed. -/
theorem match_strategies_miss (st : MatcherState) (text : String) (context : Option Ctx)
    (preferences : Option UserPreferences)
    (hmiss : cacheFind st.cache (generate_cache_key text context) = none) :
    ∃ ms, match_strategies st text context preferences =
      finalize_matches st ms (generate_cache_key text context) preferences := by
  cases h : detect_code text.toList with
  | true =>
      refine ⟨[codeProtectMatch], ?_⟩
      have h2 : detect_code text.data = true := h
      simp [match_strategies, hmiss, h2]
  | false =>
      refine ⟨computedMatches text preferences, ?_⟩
      have h2 : detect_code text.data = false := h
      simp [match_strategies, hmiss, h2]

/- ===================== Claim C7 ======================================== -/

/-- Claim C7: execute_chain feeds the running text through the transform
once per kind in chain order, a failing step leaves the running text
unchanged and execution continues, and a final text is always produced (no
transform exception reaches the caller): the computed result is related to
the input exactly by the step relation ChainExec. -/
theorem c7_execute_chain_total (text : String) (chain : List StrategyType)
    (processor : String → StrategyType → Except String String) :
    ChainExec processor text chain (execute_chain text chain processor) := by
  induction chain generalizing text with
  | nil => exact ChainExec.nil text
  | cons k ks ih =>
      cases h : processor text k with
      | ok r =>
          have : execute_chain text (k :: ks) processor = execute_chain r ks processor := by
            simp [execute_chain, h]
          rw [this]
          exact ChainExec.okStep h (ih r)
      | error e =>
          have : execute_chain text (k :: ks) processor = execute_chain text ks processor := by
            simp [execute_chain, h]
          rw [this]
          exact ChainExec.errStep h (ih text)

/- ===================== Claim C1 ======================================== -/

/-- Claim C1 (amended): if the active provider's complete raises and a
fallback is configured and registered, complete_with_fallback returns
whatever the fallback's complete produces — in particular the fallback's
ChatCompletion when it succeeds, and the fallback's own error when it also
fails (the active provider's error is replaced, not re-raised); with no
active provider configured the call fails with the configuration error for
every registry content and provider behaviour, so no provider is
invoked. -/
theorem c1_complete_fallback (pm : ProviderManager) (messages : List Message) (stream : Bool) :
    (∀ active e ft fb, pm.get_active_provider = some active →
        active.complete messages stream = Except.error e →
        pm.fallback_provider = some ft →
        findProvider pm.providers ft = some fb →
        pm.complete_with_fallback messages stream = fb.complete messages stream) ∧
    (pm.get_active_provider = none →
        pm.complete_with_fallback messages stream =
          Except.error "No active provider configured") := by
  constructor
  · intro active e ft fb ha he hf hr
    simp [ProviderManager.complete_with_fallback, ha, he, hf, hr]
  · intro ha
    simp [ProviderManager.complete_with_fallback, ha]

/-- Witness for C1: a concrete manager whose active provider fails and
whose registered fallback succeeds returns the fallback's result, and a
concrete manager with no active provider fails with the configuration
error. -/
theorem c1_witness :
    pmFbOk.complete_with_fallback msgsW false = fallbackOkP.complete msgsW false ∧
    pmNoActive.complete_with_fallback msgsW false =
      Except.error "No active provider configured" :=
  ⟨(c1_complete_fallback pmFbOk msgsW false).1 activeFailP "active error"
      ProviderType.anthropic fallbackOkP rfl rfl rfl rfl,
   (c1_complete_fallback pmNoActive msgsW false).2 rfl⟩

/-- Counterexample for C1: with both the active and the fallback provider
failing, complete_with_fallback raises the fallback provider's error, not
the active provider's final error as the claim states. -/
theorem c1_counterexample :
    pmBothFail.complete_with_fallback msgsW false = Except.error "fallback error" ∧
    pmBothFail.complete_with_fallback msgsW false ≠ Except.error "active error" := by
  refine ⟨rfl, fun h => ?_⟩
  have h2 : ("fallback error" : String) = "active error" :=
    Except.error.inj ((rfl : pmBothFail.complete_with_fallback msgsW false =
      Except.error "fallback error") ▸ h)
  exact absurd h2 (by decide)

/- ===================== Claim C9 ======================================== -/

/-- Claim C9: if the active provider's stream raises and no fallback is
configured (or the configured fallback kind is not registered),
stream_with_fallback swallows the exception: the caller sees exactly the
chunks already yielded and a normal termination, indistinguishable from a
stream that completed normally with those chunks. -/
theorem c9_stream_swallow (pm : ProviderManager) (messages : List Message)
    (active : AIProvider) (e : String)
    (ha : pm.get_active_provider = some active)
    (he : (active.stream_complete messages).error = some e)
    (hfb : ∀ ft, pm.fallback_provider = some ft → findProvider pm.providers ft = none) :
    pm.stream_with_fallback messages =
      ⟨(active.stream_complete messages).chunks, none⟩ := by
  unfold ProviderManager.stream_with_fallback
  rw [ha]
  cases hft : pm.fallback_provider with
  | none => simp [he, hft]
  | some ft => simp [he, hft, hfb ft hft]

/-- Witness for C9: a concrete manager whose active stream fails after one
chunk and which has no fallback yields exactly that chunk and ends without
error. -/
theorem c9_witness : pmNoFb.stream_with_fallback msgsW = ⟨["a1"], none⟩ :=
  c9_stream_swallow pmNoFb msgsW activeFailP "connection reset" rfl rfl
    (fun _ h => Option.noConfusion h)

/- ===================== Claim C6 ======================================== -/

/-- Claim C6: on a cache miss, whenever detect_code fires, match_strategies
returns exactly the single CRITICAL protect-code match with confidence 0.99
(represented as 99 hundredths) and nothing else, for every context and
every preferences value. -/
theorem c6_code_shortcircuit (st : MatcherState) (text : String) (context : Option Ctx)
    (preferences : Option UserPreferences)
    (hcode : detect_code text.toList = true)
    (hmiss : cacheFind st.cache (generate_cache_key text context) = none) :
    (match_strategies st text context preferences).1 = [codeProtectMatch] ∧
    codeProtectMatch.priority = StrategyPriority.critical ∧
    codeProtectMatch.confidence = 99 ∧
    codeProtectMatch.metadata = [("action", "protect_code")] := by
  refine ⟨?_, rfl, rfl, rfl⟩
  simp only [match_strategies, hmiss, hcode, if_true]
  rfl

/-- Witness for C6: the text def foo trips detect_code and, from a fresh
matcher, produces exactly the protect-code match. -/
theorem c6_witness :
    (match_strategies matcherInit "def foo" none none).1 = [codeProtectMatch] ∧
    codeProtectMatch.priority = StrategyPriority.critical ∧
    codeProtectMatch.confidence = 99 ∧
    codeProtectMatch.metadata = [("action", "protect_code")] :=
  c6_code_shortcircuit matcherInit "def foo" none none (by decide) rfl

/- ===================== Claim C4 ======================================== -/

/-- Claim C4 (amended): because _finalize_matches checks len(cache) > 1000
before inserting, the cache invariant maintained by match_strategies is a
size of at most 1001 entries, not 1000; when the eviction does occur, the
entry removed is the oldest-inserted one (the head of the insertion-ordered
map), the new entry being appended at the tail. -/
theorem c4_cache_bound (st : MatcherState) (text : String) (context : Option Ctx)
    (preferences : Option UserPreferences)
    (hcap : st.cache_size = 1000) (hlen : st.cache.length ≤ 1001) :
    (match_strategies st text context preferences).2.cache.length ≤ 1001 ∧
    (cacheFind st.cache (generate_cache_key text context) = none →
      st.cache.length > 1000 →
      ∃ v, (match_strategies st text context preferences).2.cache =
        st.cache.tail ++ [(generate_cache_key text context, v)]) := by
  constructor
  · cases hf : cacheFind st.cache (generate_cache_key text context) with
    | some cached =>
        cases preferences with
        | some p =>
            simp only [match_strategies, hf]
            rw [cacheUpdate_length]
            exact hlen
        | none => simpa [match_strategies, hf] using hlen
    | none =>
        obtain ⟨ms, hm⟩ := match_strategies_miss st text context preferences hf
        rw [hm]
        simp only [finalize_matches]
        by_cases hb : st.cache.length > st.cache_size
        · rw [if_pos hb]
          simp only [List.length_append, List.length_tail, List.length_cons,
            List.length_nil]
          omega
        · rw [if_neg hb]
          simp only [List.length_append, List.length_cons, List.length_nil]
          rw [hcap] at hb
          omega
  · intro hf hgt
    obtain ⟨ms, hm⟩ := match_strategies_miss st text context preferences hf
    rw [hm]
    simp only [finalize_matches]
    rw [if_pos (by rw [hcap]; exact hgt)]
    exact ⟨sortMatches ms, rfl⟩

/-- Witness for C4: the amended bound applied to a fresh matcher and a
concrete call. -/
theorem c4_witness :
    (match_strategies matcherInit "hello" none none).2.cache.length ≤ 1001 ∧
    (cacheFind matcherInit.cache (generate_cache_key "hello" none) = none →
      matcherInit.cache.length > 1000 →
      ∃ v, (match_strategies matcherInit "hello" none none).2.cache =
        matcherInit.cache.tail ++ [(generate_cache_key "hello" none, v)]) :=
  c4_cache_bound matcherInit "hello" none none rfl (by decide)

set_option maxRecDepth 10000 in
/-- Counterexample for C4: from a valid 1000-entry cache (the stated
capacity), one further miss grows the cache to 1001 entries, because the
eviction check runs before the insertion and uses a strict comparison; the
claim's bound of at most 1000 entries after every call is therefore
false. -/
theorem c4_counterexample :
    fullState.cache.length = 1000 ∧
    (match_strategies fullState "x" none none).2.cache.length = 1001 := by
  constructor
  · decide
  · decide

/- ===================== Claim C2 ======================================== -/

/-- Preferences that enable everything and override nothing are mapped by
_apply_preferences to the identity on the result list. -/
theorem applyPrefResult_benign (ms : List StrategyMatch) (p : UserPreferences)
    (hc : p.correction_enabled = true) (he : p.expansion_enabled = true)
    (ht : p.translation_enabled = true) (hs : p.summarization_enabled = true)
    (hp : p.strategy_priorities = []) :
    applyPrefResult ms p = ms := by
  induction ms with
  | nil => rfl
  | cons m rest ih =>
      have h1 : passes_filter m p = true := by
        simp [passes_filter, hc, he, ht, hs]
      have h2 : overrideMatch p m = m := by
        simp [overrideMatch, hp, prioLookup]
      simp only [applyPrefResult, List.filterMap_cons, h1, if_true, h2] at ih ⊢
      rw [ih]

/-- Claim C2 (amended): calling match_strategies twice with identical text,
context and preferences — the first call a miss, the second hitting the
entry it inserted — returns identical ordered lists provided the
preferences are benign (absent, or enabling every strategy kind with no
priority overrides).  For other preferences the two calls can differ,
because the miss path never applies the enabled/priority filtering that the
hit path applies. -/
theorem c2_cache_idempotent (st : MatcherState) (text : String) (context : Option Ctx)
    (preferences : Option UserPreferences)
    (hb : benignPrefs preferences)
    (hmiss : cacheFind st.cache (generate_cache_key text context) = none) :
    (match_strategies ((match_strategies st text context preferences).2)
        text context preferences).1
      = (match_strategies st text context preferences).1 := by
  obtain ⟨ms, hm⟩ := match_strategies_miss st text context preferences hmiss
  rw [hm]
  simp only [finalize_matches]
  have h1 : cacheFind
      ((if st.cache.length > st.cache_size then st.cache.tail else st.cache) ++
        [(generate_cache_key text context, sortMatches ms)])
      (generate_cache_key text context) = some (sortMatches ms) := by
    apply cacheFind_append_self
    by_cases hb2 : st.cache.length > st.cache_size
    · rw [if_pos hb2]
      exact cacheFind_tail_none _ _ hmiss
    · rw [if_neg hb2]
      exact hmiss
  rcases hb with hnone | ⟨p, hp, hc, he, ht, hs, hpr⟩
  · subst hnone
    simp only [match_strategies, h1]
  · subst hp
    simp only [match_strategies, h1]
    exact applyPrefResult_benign _ p hc he ht hs hpr

/-- Witness for C2: two identical calls with no preferences from a fresh
matcher agree. -/
theorem c2_witness :
    (match_strategies ((match_strategies matcherInit "hello" none none).2)
        "hello" none none).1
      = (match_strategies matcherInit "hello" none none).1 :=
  c2_cache_idempotent matcherInit "hello" none none (Or.inl rfl) rfl

/-- Counterexample for C2: with all strategies enabled but a priority
override for translation, the first (miss) call returns the translation
match at its computed MEDIUM priority while the second (hit) call re-applies
the preferences and returns it at the overridden HIGH priority, so two
identical calls return different lists. -/
theorem c2_counterexample :
    (match_strategies ((match_strategies matcherInit "你好" none (some overridePrefs)).2)
        "你好" none (some overridePrefs)).1
      ≠ (match_strategies matcherInit "你好" none (some overridePrefs)).1 := by
  decide

/- ===================== Claim C10 ======================================= -/

/-- Claim C10: a cache hit with preferences mutates, through aliasing, the
priority fields of the StrategyMatch objects stored in the cache entry
(exactly those passing the enabled filter, when an override for their kind
exists), so a subsequent call for the same text and context with no
preferences at all observes the mutated list — the overridden priorities —
rather than the originally computed one. -/
theorem c10_hit_mutates_cache (st : MatcherState) (text : String) (context : Option Ctx)
    (p : UserPreferences) (cached : List StrategyMatch)
    (h : cacheFind st.cache (generate_cache_key text context) = some cached) :
    (match_strategies ((match_strategies st text context (some p)).2) text context none).1
      = applyPrefMutate cached p ∧
    ∀ m ∈ cached, passes_filter m p = true →
      overrideMatch p m ∈
        (match_strategies ((match_strategies st text context (some p)).2)
          text context none).1 := by
  have hstep : (match_strategies st text context (some p)).2
      = ⟨cacheUpdate st.cache (generate_cache_key text context) (applyPrefMutate cached p),
         st.cache_size⟩ := by
    simp only [match_strategies, h]
  have hfind := cacheFind_cacheUpdate st.cache (generate_cache_key text context)
    (applyPrefMutate cached p) cached h
  have hres : (match_strategies ((match_strategies st text context (some p)).2)
      text context none).1 = applyPrefMutate cached p := by
    rw [hstep]
    simp only [match_strategies, hfind]
  refine ⟨hres, fun m hm hpass => ?_⟩
  rw [hres]
  simp only [applyPrefMutate]
  exact List.mem_map.mpr ⟨m, hm, by rw [if_pos hpass]⟩

/-- Witness for C10: from a cache holding the unfiltered matches for the
text 你好, one hit with a translation override rewrites the cached priority,
and a following call without preferences returns the mutated list. -/
theorem c10_witness :
    (match_strategies ((match_strategies hitState "你好" none (some overridePrefs)).2)
        "你好" none none).1
      = applyPrefMutate cachedPair overridePrefs ∧
    ∀ m ∈ cachedPair, passes_filter m overridePrefs = true →
      overrideMatch overridePrefs m ∈
        (match_strategies ((match_strategies hitState "你好" none (some overridePrefs)).2)
          "你好" none none).1 :=
  c10_hit_mutates_cache hitState "你好" none overridePrefs cachedPair rfl

/- ===================== Claim C8 ======================================== -/

/-- Counterexample for C8: on the scenario text with every strategy enabled
the match list contains no translation or expansion candidate at all (the
mixed Chinese/English text fails both detectors), so it does not contain
exactly one such match. -/
theorem c8_counterexample :
    ((match_strategies matcherInit c8text none (some defaultPrefs)).1.countP
      (fun m => m.strategy_type == StrategyType.translation ||
        m.strategy_type == StrategyType.expansion)) ≠ 1 := by
  decide

/-- Claim C8 (amended): on the scenario text 项目使用了 React 和 Node.js
with every strategy enabled, match_strategies indeed returns no code-protect
match — but no other match either: the translation-candidate detector
rejects mixed-language text that is not of the exact two-token shape, the
text is longer than the ten-character expansion bound, and no other detector
fires, so the result is empty. -/
theorem c8_mixed_text_empty :
    (match_strategies matcherInit c8text none (some defaultPrefs)).1 = [] := by
  decide

/- ===================== Claim C5 ======================================== -/

/-- The powers of two indexed by consecutive attempts are strictly
increasing. -/
theorem pow2_delays_chain (n : Nat) :
    ((List.range n).map (2 ^ ·)).Chain' (· < ·) :=
  (List.Pairwise.map (2 ^ ·)
    (fun _ _ h => Nat.pow_lt_pow_right (by omega) h)
    (List.pairwise_lt_range n)).chain'

/-- Retry loop, all-429 case: with every remaining attempt rate-limited and
429 retried by the variant, the loop sleeps two-to-the-attempt after every
attempt and ends by raising Max retries exceeded. -/
theorem completeAux_allFail (variant : ProviderType) (model : String) (rc : Nat)
    (resp : Nat → HttpAttempt) (hv : handles429 variant = true)
    (h429 : ∀ i, i < rc → (resp i).is429 = true) :
    ∀ rem attempt calls delays, attempt + rem = rc →
      completeAux variant model rc resp rem attempt calls delays =
        CompleteOutcome.failure "Max retries exceeded" (calls + rem)
          (delays ++ (List.range' attempt rem).map (2 ^ ·)) := by
  intro rem
  induction rem with
  | zero =>
      intro attempt calls delays _
      simp [completeAux]
  | succ n ih =>
      intro attempt calls delays hsum
      have hi : attempt < rc := by omega
      have h4 := h429 attempt hi
      cases hr : resp attempt with
      | timeout => rw [hr] at h4; simp [HttpAttempt.is429] at h4
      | response r =>
          rw [hr] at h4
          have hst : r.status = 429 := by
            simpa [HttpAttempt.is429] using h4
          have h200 : ¬ (r.status = 200) := by omega
          have hcond : (decide (r.status = 429) && handles429 variant) = true := by
            rw [hst, hv]; rfl
          rw [completeAux]
          simp only [hr]
          rw [if_neg h200, if_pos hcond]
          rw [ih (attempt + 1) (calls + 1) (delays ++ [2 ^ attempt]) (by omega)]
          rw [List.range'_succ, List.map_cons]
          rw [show calls + 1 + n = calls + (n + 1) from by omega]
          rw [List.append_assoc]
          rfl

/-- Retry loop, eventual-success case: with the first attempts rate-limited
(and retried) and attempt rc-1 answering 200, the loop returns the parsed
completion after exactly one call per attempt, having slept
two-to-the-attempt seconds between consecutive attempts. -/
theorem completeAux_success (variant : ProviderType) (model : String) (rc : Nat)
    (resp : Nat → HttpAttempt) (hv : handles429 variant = true) (r : HttpResponse)
    (h429 : ∀ i, i < rc - 1 → (resp i).is429 = true)
    (h200 : resp (rc - 1) = HttpAttempt.response r) (hs : r.status = 200) :
    ∀ n attempt calls delays, attempt + n + 1 = rc →
      completeAux variant model rc resp (n + 1) attempt calls delays =
        CompleteOutcome.success (parseSuccess variant model r) (calls + n + 1)
          (delays ++ (List.range' attempt n).map (2 ^ ·)) := by
  intro n
  induction n with
  | zero =>
      intro attempt calls delays hsum
      have ha : attempt = rc - 1 := by omega
      subst ha
      simp [completeAux, h200, hs]
  | succ n ih =>
      intro attempt calls delays hsum
      have hi : attempt < rc - 1 := by omega
      have h4 := h429 attempt hi
      cases hr : resp attempt with
      | timeout => rw [hr] at h4; simp [HttpAttempt.is429] at h4
      | response r' =>
          rw [hr] at h4
          have hst : r'.status = 429 := by
            simpa [HttpAttempt.is429] using h4
          have hne : ¬ (r'.status = 200) := by omega
          have hcond : (decide (r'.status = 429) && handles429 variant) = true := by
            rw [hst, hv]; rfl
          rw [completeAux]
          simp only [hr]
          rw [if_neg hne, if_pos hcond]
          rw [ih (attempt + 1) (calls + 1) (delays ++ [2 ^ attempt]) (by omega)]
          rw [List.range'_succ, List.map_cons]
          rw [show calls + 1 + n + 1 = calls + (n + 1) + 1 from by omega]
          rw [List.append_assoc]
          rfl

/-- Claim C5 (amended): for the OpenAI and Anthropic variants and every
retry_count of at least one, a backend answering 429 on the first
retry_count - 1 attempts and 200 on the last makes complete issue exactly
retry_count HTTP calls, sleep the strictly increasing delays
two-to-the-attempt between attempts, and return the parsed completion of
the 200 response; if every attempt answers 429, complete raises Max retries
exceeded.  The LOCAL variant is excluded: its complete has no 429 branch
and raises on the first 429 (see the counterexample). -/
theorem c5_retry_backoff (variant : ProviderType)
    (hv : variant = ProviderType.openai ∨ variant = ProviderType.anthropic)
    (model : String) (rc : Nat) (hrc : 1 ≤ rc) (resp : Nat → HttpAttempt) :
    (∀ r, (∀ i, i < rc - 1 → (resp i).is429 = true) →
        resp (rc - 1) = HttpAttempt.response r → r.status = 200 →
        providerComplete variant model rc resp =
          CompleteOutcome.success (parseSuccess variant model r) rc
            ((List.range (rc - 1)).map (2 ^ ·)) ∧
        ((List.range (rc - 1)).map (2 ^ ·)).Chain' (· < ·)) ∧
    ((∀ i, i < rc → (resp i).is429 = true) →
        providerComplete variant model rc resp =
          CompleteOutcome.failure "Max retries exceeded" rc
            ((List.range rc).map (2 ^ ·))) := by
  have hv' : handles429 variant = true := by
    rcases hv with h | h <;> subst h <;> rfl
  obtain ⟨n, rfl⟩ : ∃ n, rc = n + 1 := ⟨rc - 1, by omega⟩
  constructor
  · intro r h429 h200 hs
    refine ⟨?_, pow2_delays_chain n⟩
    have := completeAux_success variant model (n + 1) resp hv' r h429 h200 hs n 0 0 []
      (by omega)
    rw [providerComplete, this]
    simp [List.range_eq_range']
  · intro h429
    have := completeAux_allFail variant model (n + 1) resp hv' h429 (n + 1) 0 0 []
      (by omega)
    rw [providerComplete, this]
    simp [List.range_eq_range']

/-- Witness for C5: the OpenAI variant with retry_count three and a backend
answering 429, 429, 200 issues three calls with delays one then two seconds
and succeeds. -/
theorem c5_witness :
    providerComplete ProviderType.openai "gpt-3.5-turbo" 3 resp429twice =
      CompleteOutcome.success (parseSuccess ProviderType.openai "gpt-3.5-turbo" ok200) 3
        ((List.range 2).map (2 ^ ·)) ∧
    ((List.range 2).map (2 ^ ·)).Chain' (· < ·) :=
  (c5_retry_backoff ProviderType.openai (Or.inl rfl) "gpt-3.5-turbo" 3 (by omega)
      resp429twice).1 ok200
    (by intro i hi; interval_cases i <;> rfl) rfl rfl

/-- Counterexample for C5: the claim quantifies over every provider
variant, but the LOCAL variant's complete raises Local API error: 429 on
the very first rate-limited attempt — one HTTP call, no backoff — instead
of retrying to the eventual 200. -/
theorem c5_counterexample :
    providerComplete ProviderType.localBackend "llama3" 2 respLocal429 =
      CompleteOutcome.failure "Local API error: 429" 1 [] ∧
    providerComplete ProviderType.localBackend "llama3" 2 respLocal429 ≠
      CompleteOutcome.success
        (parseSuccess ProviderType.localBackend "llama3" ⟨200, "hello", none, none⟩) 2 [1] := by
  constructor
  · decide
  · decide

/- ===================== Claim C3 ======================================== -/

/-- A member's position is below the length. -/
theorem posOf_lt_length {a : StrategyType} :
    ∀ {l : List StrategyType}, a ∈ l → posOf a l < l.length := by
  intro l h
  induction l with
  | nil => simp at h
  | cons b l ih =>
      by_cases hb : b = a
      · simp [posOf, hb]
      · rw [posOf, if_neg hb, List.length_cons]
        have hal : a ∈ l := by
          rcases List.mem_cons.mp h with h1 | h1
          · exact absurd h1.symm hb
          · exact h1
        exact Nat.succ_lt_succ (ih hal)

/-- Positions of members of the left part survive appending on the
right. -/
theorem posOf_append_left {a : StrategyType} :
    ∀ (l1 l2 : List StrategyType), a ∈ l1 → posOf a (l1 ++ l2) = posOf a l1
  | [], _, h => by simp at h
  | b :: l1, l2, h => by
      by_cases hb : b = a
      · simp [posOf, hb]
      · have hal : a ∈ l1 := by
          rcases List.mem_cons.mp h with h1 | h1
          · exact absurd h1.symm hb
          · exact h1
        simp only [List.cons_append, posOf, if_neg hb]
        exact congrArg (· + 1) (posOf_append_left l1 l2 hal)

/-- A fresh element appended at the tail sits at position length. -/
theorem posOf_append_fresh {a : StrategyType} :
    ∀ (l : List StrategyType), a ∉ l → posOf a (l ++ [a]) = l.length
  | [], _ => by simp [posOf]
  | b :: l, h => by
      have hb : ¬ b = a := by
        intro hba
        exact h (hba ▸ List.mem_cons_self b l)
      simp only [List.cons_append, posOf, if_neg hb, List.length_cons]
      exact congrArg (· + 1) (posOf_append_fresh l (fun hal => h (List.mem_cons_of_mem b hal)))

/-- Appending a fresh element keeps a list duplicate-free. -/
theorem nodup_concat {l : List StrategyType} {a : StrategyType}
    (h : l.Nodup) (ha : a ∉ l) : (l ++ [a]).Nodup := by
  rw [List.nodup_append]
  refine ⟨h, List.nodup_singleton a, ?_⟩
  intro x hx hxa
  rw [List.mem_singleton] at hxa
  exact ha (hxa ▸ hx)

/-- Appending an element with no declared dependencies preserves the
ordering invariant. -/
theorem depsBefore_concat_trivial (deps : StrategyType → List StrategyType)
    (l : List StrategyType) (a : StrategyType)
    (ha : deps a = []) (h : depsBefore deps l) : depsBefore deps (l ++ [a]) := by
  intro k hk d hd
  rcases List.mem_append.mp hk with hk1 | hk1
  · obtain ⟨hdl, hlt⟩ := h k hk1 d hd
    refine ⟨List.mem_append_left _ hdl, ?_⟩
    rw [posOf_append_left _ _ hdl, posOf_append_left _ _ hk1]
    exact hlt
  · rw [List.mem_singleton] at hk1
    subst hk1
    rw [ha] at hd
    simp at hd

/-- Appending a fresh element whose declared dependencies are all already in
the list preserves the ordering invariant. -/
theorem depsBefore_concat_covered (deps : StrategyType → List StrategyType)
    (l : List StrategyType) (a : StrategyType)
    (h : depsBefore deps l) (hcov : ∀ d ∈ deps a, d ∈ l) (hna : a ∉ l) :
    depsBefore deps (l ++ [a]) := by
  intro k hk d hd
  rcases List.mem_append.mp hk with hk1 | hk1
  · obtain ⟨hdl, hlt⟩ := h k hk1 d hd
    refine ⟨List.mem_append_left _ hdl, ?_⟩
    rw [posOf_append_left _ _ hdl, posOf_append_left _ _ hk1]
    exact hlt
  · rw [List.mem_singleton] at hk1
    subst hk1
    have hdl := hcov d hd
    refine ⟨List.mem_append_left _ hdl, ?_⟩
    rw [posOf_append_left _ _ hdl, posOf_append_fresh l hna]
    exact posOf_lt_length hdl

/-- Specification of the inner dependency loop run on equal chain and
processed list: it appends a subset of the declared dependencies, keeps the
two lists equal and duplicate-free, preserves the ordering invariant (the
appended kinds having, by hypothesis, no dependencies of their own), and
covers every declared dependency. -/
theorem emitDeps_spec (deps : StrategyType → List StrategyType) :
    ∀ (ds chain : List StrategyType), chain.Nodup → depsBefore deps chain →
      (∀ d ∈ ds, deps d = []) →
      ∃ ext, emitDeps ds (chain, chain) = (chain ++ ext, chain ++ ext) ∧
        (∀ x ∈ ext, x ∈ ds) ∧ (chain ++ ext).Nodup ∧
        depsBefore deps (chain ++ ext) ∧ ∀ d ∈ ds, d ∈ chain ++ ext := by
  intro ds
  induction ds with
  | nil =>
      intro chain h1 h2 _
      exact ⟨[], by simp [emitDeps], by simp, by simpa, by simpa, by simp⟩
  | cons d ds ih =>
      intro chain h1 h2 h3
      have hds : ∀ x ∈ ds, deps x = [] :=
        fun x hx => h3 x (List.mem_cons_of_mem d hx)
      by_cases hd : d ∈ chain
      · obtain ⟨ext, he, hsub, hnd, hdb, hcov⟩ := ih chain h1 h2 hds
        refine ⟨ext, ?_, ?_, hnd, hdb, ?_⟩
        · rw [emitDeps, if_pos hd]
          exact he
        · exact fun x hx => List.mem_cons_of_mem d (hsub x hx)
        · intro x hx
          rcases List.mem_cons.mp hx with h4 | h4
          · rw [h4]; exact List.mem_append_left _ hd
          · exact hcov x h4
      · have hdeps : deps d = [] := h3 d (List.mem_cons_self d ds)
        obtain ⟨ext, he, hsub, hnd, hdb, hcov⟩ := ih (chain ++ [d])
          (nodup_concat h1 hd) (depsBefore_concat_trivial deps chain d hdeps h2) hds
        have hsplit : chain ++ d :: ext = (chain ++ [d]) ++ ext := by simp
        refine ⟨d :: ext, ?_, ?_, ?_, ?_, ?_⟩
        · rw [emitDeps, if_neg hd, he, hsplit]
        · intro x hx
          rcases List.mem_cons.mp hx with h4 | h4
          · rw [h4]; exact List.mem_cons_self d ds
          · exact List.mem_cons_of_mem d (hsub x h4)
        · rw [hsplit]; exact hnd
        · rw [hsplit]; exact hdb
        · intro x hx
          rw [hsplit]
          rcases List.mem_cons.mp hx with h4 | h4
          · rw [h4]
            exact List.mem_append_left _ (List.mem_append_right _ (List.mem_singleton.mpr rfl))
          · exact hcov x h4

/-- Invariant of the main build_chain loop: starting from equal,
duplicate-free, ordering-correct chain and processed lists, the result is
duplicate-free and ordering-correct, provided no kind depends on itself and
every kind appearing in a dependency list has no dependencies of its
own. -/
theorem buildChainAux_spec (deps : StrategyType → List StrategyType)
    (h1 : ∀ k, k ∉ deps k) (h2 : ∀ k d, d ∈ deps k → deps d = []) :
    ∀ (ms : List StrategyMatch) (chain : List StrategyType),
      chain.Nodup → depsBefore deps chain →
      (buildChainAux deps ms (chain, chain)).Nodup ∧
        depsBefore deps (buildChainAux deps ms (chain, chain)) := by
  intro ms
  induction ms with
  | nil =>
      intro chain hn hd
      exact ⟨hn, hd⟩
  | cons m rest ih =>
      intro chain hn hd
      by_cases hmem : m.strategy_type ∈ chain
      · rw [buildChainAux, if_pos hmem]
        exact ih chain hn hd
      · obtain ⟨ext, he, hsub, hnd, hdb, hcov⟩ :=
          emitDeps_spec deps (deps m.strategy_type) chain hn hd
            (fun d hdm => h2 m.strategy_type d hdm)
        have hknot : m.strategy_type ∉ chain ++ ext := by
          intro hx
          rcases List.mem_append.mp hx with h4 | h4
          · exact hmem h4
          · exact h1 m.strategy_type (hsub _ h4)
        have step := ih ((chain ++ ext) ++ [m.strategy_type])
          (nodup_concat hnd hknot)
          (depsBefore_concat_covered deps (chain ++ ext) m.strategy_type hdb
            (fun d hdm => hcov d hdm) hknot)
        rw [buildChainAux, if_neg hmem, he]
        exact step

/-- Claim C3 (amended): build_chain emits each strategy kind at most once
and places every declared dependency of an emitted kind strictly earlier,
provided no kind is declared to depend on itself and no kind that occurs in
a dependency list has declared dependencies of its own.  Without these
provisos the claim fails: a self-dependency duplicates the kind, and the
dependency walk is one level deep, so a dependency cycle (or a dependency
with its own dependencies) is emitted out of order or incompletely (see the
counterexample). -/
theorem c3_build_chain (deps : StrategyType → List StrategyType)
    (ms : List StrategyMatch)
    (h1 : ∀ k, k ∉ deps k) (h2 : ∀ k d, d ∈ deps k → deps d = []) :
    (build_chain deps ms).Nodup ∧ depsBefore deps (build_chain deps ms) := by
  cases ms with
  | nil =>
      constructor
      · simp [build_chain]
      · intro k hk; simp [build_chain] at hk
  | cons m rest =>
      exact buildChainAux_spec deps h1 h2 (chainSort (m :: rest)) [] List.nodup_nil
        (fun k hk => by simp at hk)

/-- Witness for C3: a well-founded dependency map (expansion depends on
correction) and one expansion match yield a duplicate-free chain that
places the dependency first. -/
theorem c3_witness :
    (build_chain depsOk [expansionMatch]).Nodup ∧
      depsBefore depsOk (build_chain depsOk [expansionMatch]) :=
  c3_build_chain depsOk [expansionMatch] (by decide) (by decide)

/-- Counterexample for C3: the claim fails on the raw code in both
conjuncts.  A kind declared to depend on itself is emitted twice (the
dependency loop appends it and the match body appends it again without
re-checking), and under the two-cycle correction-expansion the kind
expansion is emitted before its declared dependency correction. -/
theorem c3_counterexample :
    ¬ (build_chain depsSelf [correctionMatch]).Nodup ∧
    ¬ depsBefore depsCyc (build_chain depsCyc [correctionMatch, expansionMatch]) := by
  constructor
  · decide
  · decide

end RimeLLM
